import Mathlib

/-!
Verification of the replay-buffer core and the custom card-game environment
of the tf-agents tutorial notebooks.

The replay-buffer implementation (TFUniformReplayBuffer) lives in the external
framework; the notebooks only declare its abstract API and call it.  The buffer
model below is therefore built from the specification's own data model
(lanes, circular segmented stores, head/count bookkeeping, the sampler's
validity conditions, and the error taxonomy).  The card-game environment
(CardGameEnv) is fully present in the notebook source and is embedded
directly from that code.
-/

/-- Modelled from the spec: the data specification established at buffer
construction — a shape plus an element type per field, here abstracted to a
single shape/dtype pair that every stored record must match. -/
structure DataSpec where
  shape : List Nat
  dtype : Nat
deriving DecidableEq

/-- Modelled from the spec: a TrajectoryRecord — one stored transition.  Its
shape/dtype must conform to the buffer's DataSpec; the remaining payload is
abstracted to a single integer. -/
structure Record where
  shape : List Nat
  dtype : Nat
  payload : Int
deriving DecidableEq

instance : Inhabited Record := ⟨⟨[], 0, 0⟩⟩

/-- Modelled from the spec: write-time conformance of a record against the
buffer's fixed data specification (shape and element type must agree). -/
def Record.conforms (r : Record) (spec : DataSpec) : Bool :=
  r.shape == spec.shape && r.dtype == spec.dtype

/-- Modelled from the spec: the error taxonomy of §7 — SpecMismatch,
BatchSizeMismatch, InsufficientData, OutOfRange, plus the conceptual
RaggedLength failure of gather_all. -/
inductive BufError where
  | SpecMismatch
  | BatchSizeMismatch
  | InsufficientData
  | OutOfRange
  | RaggedLength
deriving DecidableEq

/-- Modelled from the spec: one lane — a circular segmented store of fixed
capacity max_length.  `slots` is the preallocated physical storage (physical
slot = logical position mod max_length), `head` the next write logical
position, `count` the number of live records (capped at max_length). -/
structure Lane where
  max_length : Nat
  slots : List Record
  head : Nat
  count : Nat
deriving DecidableEq

/-- Modelled from the spec: a freshly constructed lane — preallocated
storage, head and count zero. -/
def Lane.fresh (max_length : Nat) : Lane :=
  ⟨max_length, List.replicate max_length default, 0, 0⟩

/-- Modelled from the spec: `write(record)` — stores the record at physical
slot `head % max_length` (evicting whatever was there), advances head, and
caps count at max_length. -/
def Lane.write (lane : Lane) (r : Record) : Lane :=
  { lane with
    slots := lane.slots.set (lane.head % lane.max_length) r
    head := lane.head + 1
    count := min (lane.count + 1) lane.max_length }

/-- Write a whole sequence of records to a lane, oldest first. -/
def Lane.writeAll (lane : Lane) (rs : List Record) : Lane :=
  rs.foldl Lane.write lane

/-- Modelled from the spec: a logical index is live iff it has been written
(`i < head`) and not yet evicted (`head - count ≤ i`). -/
def Lane.validIdx (lane : Lane) (i : Nat) : Bool :=
  decide (i < lane.head) && decide (lane.head ≤ i + lane.count)

/-- Modelled from the spec: `read(logical_index)` — O(1) read of the physical
slot, failing with OutOfRange if the index has been evicted or not yet
written. -/
def Lane.read (lane : Lane) (i : Nat) : Except BufError Record :=
  if lane.validIdx i then .ok (lane.slots.getD (i % lane.max_length) default)
  else .error .OutOfRange

/-- Modelled from the spec: `read_window(start, length)` — `length` contiguous
records starting at logical index `start`, failing with OutOfRange if any
index in the range is invalid. -/
def Lane.read_window (lane : Lane) (start : Nat) : Nat → Except BufError (List Record)
  | 0 => .ok []
  | n + 1 => do
    let r ← lane.read start
    let rest ← lane.read_window (start + 1) n
    pure (r :: rest)

/-- Modelled from the spec: per-lane effect of `clear()` — count and head
reset to zero; capacity (the preallocated storage) unchanged. -/
def Lane.clear (lane : Lane) : Lane :=
  { lane with head := 0, count := 0 }

/-- Modelled from the spec: the live records of a lane in insertion order
(logical indices `head - count` through `head - 1`). -/
def Lane.liveList (lane : Lane) : List Record :=
  (List.range lane.count).map
    (fun j => lane.slots.getD ((lane.head - lane.count + j) % lane.max_length) default)

/-- Modelled from the spec: valid sampling start offsets within one lane for
windows of `num_steps` records — §4.3 rejects `start + num_steps > head` and
starts older than `head - count`. -/
def Lane.validStarts (lane : Lane) (num_steps : Nat) : List Nat :=
  (List.range (lane.head + 1)).filter
    (fun s => decide (s + num_steps ≤ lane.head) && decide (lane.head ≤ s + lane.count))

/-- Modelled from the spec: the ReplayBuffer — owns `batch_size` lanes of
capacity `max_length` each, plus the fixed data specification. -/
structure ReplayBuffer where
  data_spec : DataSpec
  batch_size : Nat
  max_length : Nat
  lanes : List Lane

/-- Modelled from the spec: construction `new(data_spec, batch_size,
max_length)` — batch_size fresh lanes of capacity max_length. -/
def ReplayBuffer.new (spec : DataSpec) (batch_size max_length : Nat) : ReplayBuffer :=
  ⟨spec, batch_size, max_length, List.replicate batch_size (Lane.fresh max_length)⟩

/-- Modelled from the spec: total capacity is `batch_size * max_length`. -/
def ReplayBuffer.capacity (b : ReplayBuffer) : Nat :=
  b.batch_size * b.max_length

/-- The lane at index `i` (a fresh dummy lane as default, never reached on a
well-formed buffer when `i < batch_size`). -/
def ReplayBuffer.laneAt (b : ReplayBuffer) (i : Nat) : Lane :=
  b.lanes.getD i (Lane.fresh b.max_length)

/-- Modelled from the spec: `add_batch(items)` — exactly one record per lane,
each conforming to the data specification; record i goes to lane i.  Fails
with BatchSizeMismatch when `items.length ≠ batch_size` and with SpecMismatch
when some record disagrees with the spec; on failure the buffer is returned
unchanged (the failed write is atomic). -/
def ReplayBuffer.add_batch (b : ReplayBuffer) (items : List Record) :
    ReplayBuffer × Option BufError :=
  if items.length ≠ b.batch_size then (b, some .BatchSizeMismatch)
  else if items.any (fun r => !(r.conforms b.data_spec)) then (b, some .SpecMismatch)
  else ({ b with lanes := List.zipWith Lane.write b.lanes items }, none)

/-- Modelled from the spec: `clear()` — resets every lane's count/head to
zero; capacity and spec unchanged. -/
def ReplayBuffer.clear (b : ReplayBuffer) : ReplayBuffer :=
  { b with lanes := b.lanes.map Lane.clear }

/-- Modelled from the spec: `gather_all()` — every live record from every
lane, shaped [batch_size, per_lane_count, ...]; fails with RaggedLength when
lanes have different live counts (the equal-count policy of §4.4). -/
def ReplayBuffer.gather_all (b : ReplayBuffer) : Except BufError (List (List Record)) :=
  if b.lanes.all (fun l => l.count == (b.lanes.headD (Lane.fresh b.max_length)).count) then
    .ok (b.lanes.map Lane.liveList)
  else .error .RaggedLength

/-- Modelled from the spec: all currently valid `(lane, start)` windows of
the requested length, the sample space of §4.3's uniform sampler. -/
def ReplayBuffer.validWindows (b : ReplayBuffer) (num_steps : Nat) : List (Nat × Nat) :=
  (List.range b.lanes.length).flatMap
    (fun li => ((b.laneAt li).validStarts num_steps).map (fun s => (li, s)))

/-- Effectful map over a list of pick indices, collecting window reads and
propagating the first failure (the sampling loop of `get_next`). -/
def sampleReads (f : Nat → Except BufError (List Record)) :
    List Nat → Except BufError (List (List Record))
  | [] => .ok []
  | i :: rest => do
    let w ← f i
    let ws ← sampleReads f rest
    pure (w :: ws)

/-- Modelled from the spec: `get_next(sample_batch_size, num_steps)` — fails
with InsufficientData when no valid window exists; otherwise performs
`sample_batch_size` picks, each choosing one valid `(lane, start)` window
uniformly (the external randomness `rand` supplies the i-th draw, reduced
modulo the number of valid windows) and reading its `num_steps` contiguous
records. -/
def ReplayBuffer.get_next (b : ReplayBuffer) (rand : Nat → Nat)
    (sample_batch_size num_steps : Nat) : Except BufError (List (List Record)) :=
  let ws := b.validWindows num_steps
  if ws.length = 0 then .error .InsufficientData
  else
    sampleReads
      (fun i =>
        let p := ws.getD (rand i % ws.length) (0, 0)
        (b.laneAt p.1).read_window p.2 num_steps)
      (List.range sample_batch_size)

/-- Modelled from the spec: `as_stream(sample_batch_size, num_steps)` — a
lazy infinite sequence of batches, each constructed exactly as in `get_next`
(batch i uses the i-th block of the randomness source). -/
def ReplayBuffer.as_stream (b : ReplayBuffer) (rand : Nat → Nat)
    (sample_batch_size num_steps : Nat) : Nat → Except BufError (List (List Record)) :=
  fun i =>
    b.get_next (fun j => rand (i * sample_batch_size + j)) sample_batch_size num_steps

/-- A lifecycle operation that mutates the buffer (reads `get_next`,
`as_stream` and `gather_all` return values and leave the buffer untouched). -/
inductive BufOp where
  | add (items : List Record)
  | clearOp
deriving DecidableEq

/-- Apply one mutating lifecycle operation. -/
def applyOp (b : ReplayBuffer) : BufOp → ReplayBuffer
  | .add items => (b.add_batch items).1
  | .clearOp => b.clear

/-- Apply a sequence of mutating lifecycle operations, oldest first. -/
def applyOps (b : ReplayBuffer) (ops : List BufOp) : ReplayBuffer :=
  ops.foldl applyOp b

/-- Apply a sequence of `add_batch` calls, oldest first. -/
def addBatchSeq (b : ReplayBuffer) (batches : List (List Record)) : ReplayBuffer :=
  batches.foldl (fun b items => (b.add_batch items).1) b

/-- Well-formedness of a lane: physical storage of exactly max_length slots,
count capped at max_length and never exceeding head. -/
def Lane.WF (lane : Lane) : Prop :=
  lane.slots.length = lane.max_length ∧ lane.count ≤ lane.max_length ∧ lane.count ≤ lane.head

/-- Well-formedness of a buffer: one lane per batch element, every lane
well-formed with the buffer's per-lane capacity. -/
def ReplayBuffer.WF (b : ReplayBuffer) : Prop :=
  b.lanes.length = b.batch_size ∧ ∀ l ∈ b.lanes, l.WF ∧ l.max_length = b.max_length

/-- Step kind of a tf-agents time step: FIRST, MID or LAST. -/
inductive StepKind where
  | first
  | mid
  | last
deriving DecidableEq

/-- A time step as produced by the card-game environment: step kind,
observation (the card sum), reward and discount (integer-valued here: every
reward/discount the environment produces is an integer). -/
structure TimeStep where
  kind : StepKind
  observation : Int
  reward : Int
  discount : Int
deriving DecidableEq

/-- The `ts.restart(obs)` constructor: a FIRST step with zero reward and discount 1. -/
def ts_restart (obs : Int) : TimeStep :=
  ⟨.first, obs, 0, 1⟩

/-- The `ts.transition(obs, reward, discount)` constructor: a MID step. -/
def ts_transition (obs reward discount : Int) : TimeStep :=
  ⟨.mid, obs, reward, discount⟩

/-- The `ts.termination(obs, reward)` constructor: a LAST step (discount 0). -/
def ts_termination (obs reward : Int) : TimeStep :=
  ⟨.last, obs, reward, 0⟩

/-- Error raised by the card-game environment on an action other than 0/1
(the `ValueError` of the Python code). -/
inductive EnvError where
  | valueError
deriving DecidableEq

/-- Mutable state of `CardGameEnv`: `_state` (the running card sum) and
`_episode_ended`. -/
structure CardGameState where
  state : Int
  episode_ended : Bool
deriving DecidableEq

/-- Embedding of `CardGameEnv._reset`: state 0, episode not ended, restart time step. -/
def cardGameReset : CardGameState × TimeStep :=
  (⟨0, false⟩, ts_restart 0)

/-- The tail of `CardGameEnv._step` after the action branch: termination with
reward `state - 21` (or `-21` past 21) when the episode ended or the sum
reached 21, otherwise a transition with reward 0 and discount 1. -/
def cardGameEmit (s : CardGameState) : CardGameState × TimeStep :=
  if s.episode_ended || decide (21 ≤ s.state) then
    (s, ts_termination s.state (if s.state ≤ 21 then s.state - 21 else -21))
  else
    (s, ts_transition s.state 0 1)

/-- Embedding of `CardGameEnv._step(action)`: returns to a fresh episode when the previous
action ended it; action 1 ends the episode, action 0 draws `new_card` (the
value `np.random.randint(1, 11)` produced, supplied here as an input), any
other action raises ValueError before touching the state. -/
def cardGameStep (s : CardGameState) (action new_card : Int) :
    CardGameState × Except EnvError TimeStep :=
  if s.episode_ended then
    (cardGameReset.1, .ok cardGameReset.2)
  else if action = 1 then
    let out := cardGameEmit { s with episode_ended := true }
    (out.1, .ok out.2)
  else if action = 0 then
    let out := cardGameEmit { s with state := s.state + new_card }
    (out.1, .ok out.2)
  else
    (s, .error .valueError)

/-- Modelled from the spec: the probability that a single uniform pick over
the valid windows selects `w` — `1 / |validWindows|` for a valid window and 0
otherwise (§4.3: "a uniform distribution over all currently valid
`(lane, start)` windows"). -/
def uniformWindowProb (b : ReplayBuffer) (n : Nat) (w : Nat × Nat) : ℚ :=
  if w ∈ b.validWindows n then 1 / ((b.validWindows n).length : ℚ) else 0

/-- The alternative distribution described in §4.2's wording of `get_next`:
first choose a lane uniformly at random, then a valid start uniformly within
that lane. -/
def laneThenStartProb (b : ReplayBuffer) (n : Nat) (w : Nat × Nat) : ℚ :=
  if w ∈ b.validWindows n then
    (1 / (b.lanes.length : ℚ)) * (1 / (((b.laneAt w.1).validStarts n).length : ℚ))
  else 0

/-- Example buffer with two lanes of unequal live counts (1 and 2), used to
compare the uniform-over-windows distribution with the lane-then-start
distribution. -/
def sampleBufferEx : ReplayBuffer :=
  ⟨⟨[1], 0⟩, 2, 3,
    [(Lane.fresh 3).write ⟨[1], 0, 1⟩,
     ((Lane.fresh 3).write ⟨[1], 0, 1⟩).write ⟨[1], 0, 2⟩]⟩

/-! ### Helper lemmas: lanes -/

lemma getD_set_record (l : List Record) (i j : Nat) (a d : Record) :
    (l.set i a).getD j d = if i = j ∧ j < l.length then a else l.getD j d := by
  rcases eq_or_ne i j with h | h
  · subst h
    by_cases hl : i < l.length
    · simp [List.getD, List.getElem?_set, hl]
    · simp [List.getD, List.getElem?_set, hl,
        List.getElem?_eq_none (by omega : l.length ≤ i)]
  · simp [List.getD, List.getElem?_set, h]

lemma getD_mem_of_lt {α : Type} (l : List α) (n : Nat) (d : α) (h : n < l.length) :
    l.getD n d ∈ l := by
  simp only [List.getD_eq_getElem l d h]
  exact List.getElem_mem h

lemma getD_append_left {α : Type} (l l' : List α) (i : Nat) (h : i < l.length) (d : α) :
    (l ++ l').getD i d = l.getD i d := by
  simp [List.getD, List.getElem?_append_left h]

lemma getD_append_self {α : Type} (l : List α) (r d : α) :
    (l ++ [r]).getD l.length d = r := by
  simp [List.getD, List.getElem?_append_right (le_refl l.length)]

lemma min_cap_add (a m L : Nat) : min (min a L + m) L = min (a + m) L := by
  rcases Nat.le_total a L with hh | hh
  · rw [Nat.min_eq_left hh]
  · rw [Nat.min_eq_right hh, Nat.min_eq_right (Nat.le_add_right L m),
      Nat.min_eq_right (le_trans hh (Nat.le_add_right a m))]

lemma mod_ne_of_between (L i m : Nat) (hL : 0 < L) (h1 : i < m) (h2 : m < i + L) :
    i % L ≠ m % L := by
  intro heq
  have hmod : Nat.ModEq L i m := heq
  have hdvd : L ∣ m - i := (Nat.modEq_iff_dvd' (by omega)).mp hmod
  have := Nat.le_of_dvd (by omega) hdvd
  omega

lemma lane_write_max_length (lane : Lane) (r : Record) :
    (lane.write r).max_length = lane.max_length := rfl

lemma lane_write_head (lane : Lane) (r : Record) :
    (lane.write r).head = lane.head + 1 := rfl

lemma lane_write_count (lane : Lane) (r : Record) :
    (lane.write r).count = min (lane.count + 1) lane.max_length := rfl

lemma lane_write_slots_length (lane : Lane) (r : Record) :
    (lane.write r).slots.length = lane.slots.length := by
  simp [Lane.write]

lemma lane_writeAll_nil (lane : Lane) : lane.writeAll [] = lane := rfl

lemma lane_writeAll_cons (lane : Lane) (r : Record) (rs : List Record) :
    lane.writeAll (r :: rs) = (lane.write r).writeAll rs := rfl

lemma lane_writeAll_append_one (lane : Lane) (rs : List Record) (r : Record) :
    lane.writeAll (rs ++ [r]) = (lane.writeAll rs).write r := by
  simp [Lane.writeAll, List.foldl_append]

lemma lane_writeAll_max_length (lane : Lane) (rs : List Record) :
    (lane.writeAll rs).max_length = lane.max_length := by
  induction rs generalizing lane with
  | nil => rfl
  | cons r rs ih => rw [lane_writeAll_cons, ih, lane_write_max_length]

lemma lane_writeAll_head (lane : Lane) (rs : List Record) :
    (lane.writeAll rs).head = lane.head + rs.length := by
  induction rs generalizing lane with
  | nil => rfl
  | cons r rs ih =>
    rw [lane_writeAll_cons, ih, lane_write_head, List.length_cons]
    omega

lemma lane_writeAll_slots_length (lane : Lane) (rs : List Record) :
    (lane.writeAll rs).slots.length = lane.slots.length := by
  induction rs generalizing lane with
  | nil => rfl
  | cons r rs ih => rw [lane_writeAll_cons, ih, lane_write_slots_length]

lemma lane_writeAll_count (lane : Lane) (rs : List Record)
    (h : lane.count ≤ lane.max_length) :
    (lane.writeAll rs).count = min (lane.count + rs.length) lane.max_length := by
  induction rs generalizing lane with
  | nil =>
    rw [lane_writeAll_nil, List.length_nil, Nat.add_zero, Nat.min_eq_left h]
  | cons r rs ih =>
    rw [lane_writeAll_cons, ih (lane.write r) (Nat.min_le_right _ _),
      lane_write_count, lane_write_max_length, min_cap_add, List.length_cons]
    omega

lemma lane_fresh_count (L : Nat) : (Lane.fresh L).count = 0 := rfl

lemma lane_fresh_head (L : Nat) : (Lane.fresh L).head = 0 := rfl

lemma lane_fresh_max_length (L : Nat) : (Lane.fresh L).max_length = L := rfl

lemma lane_fresh_slots_length (L : Nat) : (Lane.fresh L).slots.length = L := by
  simp [Lane.fresh]

lemma lane_fresh_writeAll_count (L : Nat) (rs : List Record) :
    ((Lane.fresh L).writeAll rs).count = min rs.length L := by
  rw [lane_writeAll_count _ _ (by simp [Lane.fresh])]
  simp [Lane.fresh]

lemma lane_fresh_writeAll_head (L : Nat) (rs : List Record) :
    ((Lane.fresh L).writeAll rs).head = rs.length := by
  rw [lane_writeAll_head, lane_fresh_head, Nat.zero_add]

/-- Circular-storage invariant: after writing `rs` into a fresh lane, every
logical index among the newest `max_length` still holds its original record
in physical slot `i % max_length`. -/
lemma lane_fresh_writeAll_slots (L : Nat) (hL : 0 < L) (rs : List Record) :
    ∀ i, i < rs.length → rs.length ≤ i + L →
      ((Lane.fresh L).writeAll rs).slots.getD (i % L) default = rs.getD i default := by
  induction rs using List.reverseRecOn with
  | nil => intro i h1 _; simp at h1
  | append_singleton rs r ih =>
    intro i h1 h2
    rw [lane_writeAll_append_one]
    have hml : ((Lane.fresh L).writeAll rs).max_length = L := by
      rw [lane_writeAll_max_length, lane_fresh_max_length]
    have hhd : ((Lane.fresh L).writeAll rs).head = rs.length :=
      lane_fresh_writeAll_head L rs
    have hsl : ((Lane.fresh L).writeAll rs).slots.length = L := by
      rw [lane_writeAll_slots_length, lane_fresh_slots_length]
    have hlen : (rs ++ [r]).length = rs.length + 1 := by simp
    rcases Nat.lt_or_ge i rs.length with hi | hi
    · -- an older index: the new write lands in a different physical slot
      have hne : i % L ≠ rs.length % L :=
        mod_ne_of_between L i rs.length hL hi (by omega)
      show (((Lane.fresh L).writeAll rs).slots.set
          (((Lane.fresh L).writeAll rs).head % ((Lane.fresh L).writeAll rs).max_length) r).getD
          (i % L) default = (rs ++ [r]).getD i default
      rw [hml, hhd, getD_set_record]
      rw [if_neg (by intro hc; exact hne hc.1.symm)]
      rw [ih i hi (by omega)]
      rw [getD_append_left rs [r] i hi]
    · -- the newest index: it is exactly the slot just written
      have hieq : i = rs.length := by omega
      show (((Lane.fresh L).writeAll rs).slots.set
          (((Lane.fresh L).writeAll rs).head % ((Lane.fresh L).writeAll rs).max_length) r).getD
          (i % L) default = (rs ++ [r]).getD i default
      rw [hieq, hml, hhd, getD_set_record]
      rw [if_pos ⟨rfl, by rw [hsl]; exact Nat.mod_lt _ hL⟩]
      rw [getD_append_self]

/-! ### Helper lemmas: reads and windows -/

lemma lane_read_of_valid (lane : Lane) (i : Nat)
    (h1 : i < lane.head) (h2 : lane.head ≤ i + lane.count) :
    lane.read i = .ok (lane.slots.getD (i % lane.max_length) default) := by
  simp [Lane.read, Lane.validIdx, h1, h2]

lemma lane_read_oob (lane : Lane) (i : Nat)
    (h : ¬(i < lane.head ∧ lane.head ≤ i + lane.count)) :
    lane.read i = .error .OutOfRange := by
  have hv : lane.validIdx i = false := by
    simp [Lane.validIdx]
    omega
  simp [Lane.read, hv]

lemma lane_read_ok_inv (lane : Lane) (i : Nat) (r : Record)
    (h : lane.read i = .ok r) :
    i < lane.head ∧ lane.head ≤ i + lane.count ∧
      r = lane.slots.getD (i % lane.max_length) default := by
  by_cases hv : lane.validIdx i
  · have h12 : i < lane.head ∧ lane.head ≤ i + lane.count := by
      simpa [Lane.validIdx] using hv
    refine ⟨h12.1, h12.2, ?_⟩
    rw [lane_read_of_valid lane i h12.1 h12.2] at h
    exact (Except.ok.inj h).symm
  · simp [Lane.read, hv] at h

lemma lane_fresh_writeAll_read_ok (L : Nat) (hL : 0 < L) (rs : List Record) (i : Nat)
    (h1 : i < rs.length) (h2 : rs.length ≤ i + min rs.length L) :
    ((Lane.fresh L).writeAll rs).read i = .ok (rs.getD i default) := by
  have hhd := lane_fresh_writeAll_head L rs
  have hct := lane_fresh_writeAll_count L rs
  have hml : ((Lane.fresh L).writeAll rs).max_length = L := by
    rw [lane_writeAll_max_length, lane_fresh_max_length]
  have hiL : rs.length ≤ i + L := by
    rcases Nat.le_total rs.length L with hc | hc
    · omega
    · rw [Nat.min_eq_right hc] at h2; omega
  rw [lane_read_of_valid _ _ (by omega) (by omega), hml,
    lane_fresh_writeAll_slots L hL rs i h1 hiL]

lemma lane_fresh_writeAll_read_err (L : Nat) (rs : List Record) (i : Nat)
    (h : ¬(i < rs.length ∧ rs.length ≤ i + min rs.length L)) :
    ((Lane.fresh L).writeAll rs).read i = .error .OutOfRange := by
  have hhd := lane_fresh_writeAll_head L rs
  have hct := lane_fresh_writeAll_count L rs
  apply lane_read_oob
  omega

lemma read_window_ok_of_valid (lane : Lane) (s n : Nat)
    (h1 : s + n ≤ lane.head) (h2 : lane.head ≤ s + lane.count) :
    lane.read_window s n =
      .ok ((List.range n).map
        (fun j => lane.slots.getD ((s + j) % lane.max_length) default)) := by
  induction n generalizing s with
  | zero => simp [Lane.read_window]
  | succ n ih =>
    have hr := lane_read_of_valid lane s (by omega) h2
    have hrec := ih (s + 1) (by omega) (by omega)
    have hstep : lane.read_window s (n + 1) =
        Except.ok (lane.slots.getD (s % lane.max_length) default ::
          (List.range n).map
            (fun j => lane.slots.getD ((s + 1 + j) % lane.max_length) default)) := by
      simp [Lane.read_window, hr, hrec, bind, pure, Except.bind, Except.pure]
    rw [hstep]
    refine congrArg Except.ok ?_
    rw [List.range_succ_eq_map, List.map_cons, List.map_map]
    refine List.cons_eq_cons.mpr ⟨by norm_num, ?_⟩
    refine List.map_congr_left ?_
    intro j _
    simp only [Function.comp_apply]
    have harith : s + 1 + j = s + j.succ := by omega
    rw [harith]

lemma read_window_ok_elim (lane : Lane) (n : Nat) :
    ∀ s ws, lane.read_window s n = .ok ws →
      ws.length = n ∧ ∀ j, j < n → lane.read (s + j) = .ok (ws.getD j default) := by
  induction n with
  | zero =>
    intro s ws h
    simp [Lane.read_window] at h
    subst h
    exact ⟨rfl, by omega⟩
  | succ n ih =>
    intro s ws h
    cases hr : lane.read s with
    | error e => simp [Lane.read_window, hr, bind, Except.bind] at h
    | ok r =>
      cases hw : lane.read_window (s + 1) n with
      | error e => simp [Lane.read_window, hr, hw, bind, Except.bind] at h
      | ok rest =>
        have hws : ws = r :: rest := by
          simp [Lane.read_window, hr, hw, bind, pure, Except.bind, Except.pure] at h
          exact h.symm
        obtain ⟨hlen, hpt⟩ := ih (s + 1) rest hw
        subst hws
        refine ⟨by simp [hlen], ?_⟩
        intro j hj
        cases j with
        | zero => simpa using hr
        | succ j =>
          have := hpt j (by omega)
          rw [show s + (j + 1) = s + 1 + j by omega]
          simpa using this

lemma sampleReads_ok_of_all (f : Nat → Except BufError (List Record)) (l : List Nat)
    (h : ∀ i ∈ l, ∃ w, f i = .ok w) :
    ∃ out, sampleReads f l = .ok out ∧ out.length = l.length := by
  induction l with
  | nil => exact ⟨[], rfl, rfl⟩
  | cons i rest ih =>
    obtain ⟨w, hw⟩ := h i (List.mem_cons_self i rest)
    obtain ⟨out, hout, hlen⟩ := ih (fun j hj => h j (List.mem_cons_of_mem i hj))
    exact ⟨w :: out, by simp [sampleReads, hw, hout, bind, pure, Except.bind, Except.pure], by simp [hlen]⟩

lemma sampleReads_ok_elim (f : Nat → Except BufError (List Record)) (l : List Nat)
    (out : List (List Record)) (h : sampleReads f l = .ok out) :
    out.length = l.length ∧ ∀ w ∈ out, ∃ i ∈ l, f i = .ok w := by
  induction l generalizing out with
  | nil =>
    simp [sampleReads] at h
    subst h
    exact ⟨rfl, by simp⟩
  | cons i rest ih =>
    cases hw : f i with
    | error e => simp [sampleReads, hw, bind, Except.bind] at h
    | ok w =>
      cases hr : sampleReads f rest with
      | error e => simp [sampleReads, hw, hr, bind, Except.bind] at h
      | ok ws =>
        have hout : out = w :: ws := by
          simp [sampleReads, hw, hr, bind, pure, Except.bind, Except.pure] at h
          exact h.symm
        obtain ⟨hlen, hmem⟩ := ih ws hr
        subst hout
        refine ⟨by simp [hlen], ?_⟩
        intro x hx
        rcases List.mem_cons.mp hx with hx | hx
        · exact ⟨i, List.mem_cons_self i rest, hx ▸ hw⟩
        · obtain ⟨j, hj, hfj⟩ := hmem x hx
          exact ⟨j, List.mem_cons_of_mem i hj, hfj⟩

/-! ### Helper lemmas: buffer operations -/

lemma getD_zipWith_write (lanes : List Lane) (items : List Record) (i : Nat)
    (d : Lane) (dr : Record) (h1 : i < lanes.length) (h2 : i < items.length) :
    (List.zipWith Lane.write lanes items).getD i d =
      (lanes.getD i d).write (items.getD i dr) := by
  induction lanes generalizing items i with
  | nil => simp at h1
  | cons a t ih =>
    cases items with
    | nil => simp at h2
    | cons r ts =>
      cases i with
      | zero => simp [List.getD]
      | succ i =>
        simp only [List.zipWith_cons_cons, List.getD_cons_succ]
        exact ih ts i (by simpa using h1) (by simpa using h2)

lemma add_batch_ok (b : ReplayBuffer) (items : List Record)
    (h1 : items.length = b.batch_size)
    (h2 : ∀ r ∈ items, r.conforms b.data_spec = true) :
    b.add_batch items =
      ({ b with lanes := List.zipWith Lane.write b.lanes items }, none) := by
  have hany : items.any (fun r => !(r.conforms b.data_spec)) = false := by
    rw [List.any_eq_false]
    intro r hr
    simp [h2 r hr]
  simp [ReplayBuffer.add_batch, h1, hany]

lemma add_batch_fst_of_err (b : ReplayBuffer) (items : List Record)
    (h : (b.add_batch items).2 ≠ none) : (b.add_batch items).1 = b := by
  unfold ReplayBuffer.add_batch at *
  split_ifs at * <;> simp_all

lemma mem_validStarts (lane : Lane) (n s : Nat) :
    s ∈ lane.validStarts n ↔ (s + n ≤ lane.head ∧ lane.head ≤ s + lane.count) := by
  simp only [Lane.validStarts, List.mem_filter, List.mem_range, Bool.and_eq_true,
    decide_eq_true_eq]
  omega

lemma mem_validWindows (b : ReplayBuffer) (n li s : Nat) :
    (li, s) ∈ b.validWindows n ↔
      (li < b.lanes.length ∧ s + n ≤ (b.laneAt li).head ∧
        (b.laneAt li).head ≤ s + (b.laneAt li).count) := by
  simp only [ReplayBuffer.validWindows, List.mem_flatMap, List.mem_map, List.mem_range,
    Prod.mk.injEq]
  constructor
  · rintro ⟨a, ha, s', hs', rfl, rfl⟩
    exact ⟨ha, (mem_validStarts _ n s').mp hs'⟩
  · rintro ⟨hli, hc⟩
    exact ⟨li, hli, s, (mem_validStarts _ n s).mpr hc, rfl, rfl⟩

lemma validWindows_ne_nil_iff (b : ReplayBuffer) (n : Nat)
    (hwf : ∀ l ∈ b.lanes, l.count ≤ l.head) :
    b.validWindows n ≠ [] ↔ ∃ l ∈ b.lanes, n ≤ l.count := by
  constructor
  · intro h
    obtain ⟨w, hw⟩ := List.exists_mem_of_ne_nil _ h
    obtain ⟨li, s⟩ := w
    obtain ⟨hli, h1, h2⟩ := (mem_validWindows b n li s).mp hw
    refine ⟨b.laneAt li, getD_mem_of_lt _ _ _ hli, ?_⟩
    omega
  · rintro ⟨l, hl, hn⟩
    obtain ⟨i, hil⟩ := List.mem_iff_get.mp hl
    have hlt : (i : Nat) < b.lanes.length := i.isLt
    have hlaneAt : b.laneAt i = l := by
      rw [ReplayBuffer.laneAt, List.getD_eq_getElem _ _ hlt]
      rw [← hil]
      simp [List.get_eq_getElem]
    have hch : l.count ≤ l.head := hwf l hl
    intro hnil
    have : ((i : Nat), l.head - n) ∈ b.validWindows n := by
      rw [mem_validWindows, hlaneAt]
      omega
    rw [hnil] at this
    simp at this

lemma validWindows_mem_getD (b : ReplayBuffer) (n u : Nat)
    (h : u < (b.validWindows n).length) :
    (b.validWindows n).getD u (0, 0) ∈ b.validWindows n :=
  getD_mem_of_lt _ _ _ h

lemma laneAt_clear (b : ReplayBuffer) (i : Nat) (h : i < b.lanes.length) :
    b.clear.laneAt i = (b.laneAt i).clear := by
  simp only [ReplayBuffer.clear, ReplayBuffer.laneAt]
  rw [List.getD_eq_getElem _ _ (by simpa using h), List.getD_eq_getElem _ _ h]
  simp

lemma new_lanes_mem (spec : DataSpec) (bs L : Nat) (l : Lane)
    (h : l ∈ (ReplayBuffer.new spec bs L).lanes) : l = Lane.fresh L :=
  List.eq_of_mem_replicate h

lemma new_WF (spec : DataSpec) (bs L : Nat) : (ReplayBuffer.new spec bs L).WF := by
  refine ⟨by simp [ReplayBuffer.new], ?_⟩
  intro l hl
  rw [new_lanes_mem spec bs L l hl]
  exact ⟨⟨lane_fresh_slots_length L, by simp [Lane.fresh], by simp [Lane.fresh]⟩, rfl⟩

lemma lane_write_WF (lane : Lane) (r : Record) (h : lane.WF) : (lane.write r).WF := by
  obtain ⟨hs, hc, hh⟩ := h
  refine ⟨?_, ?_, ?_⟩
  · rw [lane_write_slots_length, hs, lane_write_max_length]
  · rw [lane_write_count, lane_write_max_length]
    exact Nat.min_le_right _ _
  · rw [lane_write_count, lane_write_head]
    have := Nat.min_le_left (lane.count + 1) lane.max_length
    omega

lemma mem_zipWith_write (lanes : List Lane) (items : List Record) (l : Lane)
    (h : l ∈ List.zipWith Lane.write lanes items) :
    ∃ l' ∈ lanes, ∃ r ∈ items, l = l'.write r := by
  induction lanes generalizing items with
  | nil => simp [List.zipWith] at h
  | cons a t ih =>
    cases items with
    | nil => simp [List.zipWith] at h
    | cons r ts =>
      rw [List.zipWith_cons_cons] at h
      rcases List.mem_cons.mp h with h | h
      · exact ⟨a, List.mem_cons_self a t, r, List.mem_cons_self r ts, h⟩
      · obtain ⟨l', hl', r', hr', heq⟩ := ih ts h
        exact ⟨l', List.mem_cons_of_mem a hl', r', List.mem_cons_of_mem r hr', heq⟩

lemma add_batch_WF (b : ReplayBuffer) (items : List Record) (h : b.WF) :
    ((b.add_batch items).1).WF := by
  by_cases h1 : items.length = b.batch_size
  · by_cases h2 : ∀ r ∈ items, r.conforms b.data_spec = true
    · rw [add_batch_ok b items h1 h2]
      obtain ⟨hlen, hlanes⟩ := h
      refine ⟨?_, ?_⟩
      · simp [List.length_zipWith, hlen, h1]
      · intro l hl
        obtain ⟨l', hl', r, _, rfl⟩ := mem_zipWith_write b.lanes items l hl
        obtain ⟨hwf', hml'⟩ := hlanes l' hl'
        exact ⟨lane_write_WF l' r hwf', by rw [lane_write_max_length]; exact hml'⟩
    · have : (b.add_batch items).1 = b := by
        apply add_batch_fst_of_err
        push_neg at h2
        obtain ⟨r, hr, hnc⟩ := h2
        have hany : items.any (fun r => !(r.conforms b.data_spec)) = true := by
          rw [List.any_eq_true]
          exact ⟨r, hr, by simp [hnc]⟩
        unfold ReplayBuffer.add_batch
        split_ifs <;> simp_all
      rw [this]; exact h
  · have : (b.add_batch items).1 = b := by
      apply add_batch_fst_of_err
      unfold ReplayBuffer.add_batch
      split_ifs <;> simp_all
    rw [this]; exact h

lemma clear_WF (b : ReplayBuffer) (h : b.WF) : b.clear.WF := by
  obtain ⟨hlen, hlanes⟩ := h
  refine ⟨by simp [ReplayBuffer.clear, hlen], ?_⟩
  intro l hl
  simp only [ReplayBuffer.clear] at hl
  obtain ⟨l', hl', rfl⟩ := List.mem_map.mp hl
  obtain ⟨⟨hs, hc, hh⟩, hml⟩ := hlanes l' hl'
  exact ⟨⟨hs, by simp [Lane.clear], by simp [Lane.clear]⟩, hml⟩

lemma add_batch_fields (b : ReplayBuffer) (items : List Record) :
    (b.add_batch items).1.data_spec = b.data_spec ∧
    (b.add_batch items).1.batch_size = b.batch_size ∧
    (b.add_batch items).1.max_length = b.max_length := by
  unfold ReplayBuffer.add_batch
  split_ifs <;> simp

lemma clear_fields (b : ReplayBuffer) :
    b.clear.data_spec = b.data_spec ∧ b.clear.batch_size = b.batch_size ∧
    b.clear.max_length = b.max_length :=
  ⟨rfl, rfl, rfl⟩

lemma applyOp_fields (b : ReplayBuffer) (op : BufOp) :
    (applyOp b op).data_spec = b.data_spec ∧
    (applyOp b op).batch_size = b.batch_size ∧
    (applyOp b op).max_length = b.max_length := by
  cases op with
  | add items => exact add_batch_fields b items
  | clearOp => exact clear_fields b

lemma applyOp_WF (b : ReplayBuffer) (op : BufOp) (h : b.WF) : (applyOp b op).WF := by
  cases op with
  | add items => exact add_batch_WF b items h
  | clearOp => exact clear_WF b h

lemma applyOps_fields (ops : List BufOp) : ∀ b : ReplayBuffer,
    (applyOps b ops).data_spec = b.data_spec ∧
    (applyOps b ops).batch_size = b.batch_size ∧
    (applyOps b ops).max_length = b.max_length := by
  induction ops with
  | nil => intro b; exact ⟨rfl, rfl, rfl⟩
  | cons op rest ih =>
    intro b
    obtain ⟨h1, h2, h3⟩ := ih (applyOp b op)
    obtain ⟨g1, g2, g3⟩ := applyOp_fields b op
    exact ⟨h1.trans g1, h2.trans g2, h3.trans g3⟩

lemma applyOps_WF (ops : List BufOp) : ∀ b : ReplayBuffer, b.WF → (applyOps b ops).WF := by
  induction ops with
  | nil => intro b h; exact h
  | cons op rest ih => intro b h; exact ih (applyOp b op) (applyOp_WF b op h)

lemma applyOps_lanes_length (ops : List BufOp) (b : ReplayBuffer) (h : b.WF) :
    (applyOps b ops).lanes.length = b.lanes.length := by
  have h1 := (applyOps_WF ops b h).1
  have h2 := (applyOps_fields ops b).2.1
  rw [h1, h2, h.1]

lemma addBatchSeq_eq_applyOps (batches : List (List Record)) : ∀ b : ReplayBuffer,
    addBatchSeq b batches = applyOps b (batches.map BufOp.add) := by
  induction batches with
  | nil => intro b; rfl
  | cons items rest ih =>
    intro b
    show addBatchSeq ((b.add_batch items).1) rest = _
    rw [ih]
    rfl

lemma addBatchSeq_count (batches : List (List Record)) : ∀ (b : ReplayBuffer), b.WF →
    (∀ items ∈ batches, items.length = b.batch_size ∧
      ∀ r ∈ items, r.conforms b.data_spec = true) →
    ∀ c, (∀ l ∈ b.lanes, l.count = c) → c ≤ b.max_length →
    ∀ l ∈ (addBatchSeq b batches).lanes, l.count = min (c + batches.length) b.max_length := by
  induction batches with
  | nil =>
    intro b _ _ c hc hcL l hl
    show l.count = min (c + ([] : List (List Record)).length) b.max_length
    rw [List.length_nil, Nat.add_zero, Nat.min_eq_left hcL]
    exact hc l hl
  | cons items rest ih =>
    intro b hwf hvalid c hc hcL l hl
    obtain ⟨hil, hic⟩ := hvalid items (List.mem_cons_self items rest)
    have hstep : addBatchSeq b (items :: rest) = addBatchSeq ((b.add_batch items).1) rest :=
      rfl
    rw [add_batch_ok b items hil hic] at hstep
    set b' : ReplayBuffer := { b with lanes := List.zipWith Lane.write b.lanes items } with hb'
    have hwf' : b'.WF := by
      have := add_batch_WF b items hwf
      rwa [add_batch_ok b items hil hic] at this
    have hc' : ∀ l' ∈ b'.lanes, l'.count = min (c + 1) b.max_length := by
      intro l' hl'
      obtain ⟨l0, hl0, r, _, rfl⟩ := mem_zipWith_write b.lanes items l' hl'
      rw [lane_write_count, hc l0 hl0, (hwf.2 l0 hl0).2]
    have hres := ih b' hwf'
      (fun its hits => hvalid its (List.mem_cons_of_mem items hits))
      (min (c + 1) b.max_length) hc' (Nat.min_le_right _ _)
      l (by rw [hstep] at hl; exact hl)
    have : b'.max_length = b.max_length := rfl
    rw [this] at hres
    rw [hres, min_cap_add]
    congr 1
    simp
    omega

/-- C1: after N valid `add_batch` calls on a freshly constructed buffer, every
lane's live count is exactly `min N max_length`, and any further operation
(another `add_batch`, or `clear`) keeps every lane's count at or below
`max_length`. -/
theorem C1_lane_count_after_writes (spec : DataSpec) (bs L N : Nat)
    (batches : List (List Record)) (hN : batches.length = N)
    (hvalid : ∀ items ∈ batches, items.length = bs ∧
      ∀ r ∈ items, r.conforms spec = true) :
    (∀ l ∈ (addBatchSeq (ReplayBuffer.new spec bs L) batches).lanes,
      l.count = min N L) ∧
    (∀ items, ∀ l ∈
      ((addBatchSeq (ReplayBuffer.new spec bs L) batches).add_batch items).1.lanes,
      l.count ≤ L) ∧
    (∀ l ∈ (addBatchSeq (ReplayBuffer.new spec bs L) batches).clear.lanes,
      l.count ≤ L) := by
  have hwf0 := new_WF spec bs L
  have hcount := addBatchSeq_count batches (ReplayBuffer.new spec bs L) hwf0
    (by intro items hits
        obtain ⟨h1, h2⟩ := hvalid items hits
        exact ⟨h1, h2⟩)
    0
    (by intro l hl; rw [new_lanes_mem spec bs L l hl]; rfl)
    (Nat.zero_le _)
  have hwfN : (addBatchSeq (ReplayBuffer.new spec bs L) batches).WF := by
    rw [addBatchSeq_eq_applyOps]
    exact applyOps_WF _ _ hwf0
  have hmlN : (addBatchSeq (ReplayBuffer.new spec bs L) batches).max_length = L := by
    rw [addBatchSeq_eq_applyOps]
    exact (applyOps_fields _ _).2.2
  refine ⟨?_, ?_, ?_⟩
  · intro l hl
    have := hcount l hl
    rw [this, hN]
    show (0 + N) ⊓ (ReplayBuffer.new spec bs L).max_length = N ⊓ L
    rw [Nat.zero_add]
    rfl
  · intro items l hl
    have hwf' := add_batch_WF _ items hwfN
    obtain ⟨hwfl, hml⟩ := hwf'.2 l hl
    have : (((addBatchSeq (ReplayBuffer.new spec bs L) batches).add_batch items).1).max_length
        = L := by
      rw [(add_batch_fields _ items).2.2, hmlN]
    rw [this] at hml
    rw [← hml]
    exact hwfl.2.1
  · intro l hl
    have hwf' := clear_WF _ hwfN
    obtain ⟨hwfl, hml⟩ := hwf'.2 l hl
    have : ((addBatchSeq (ReplayBuffer.new spec bs L) batches).clear).max_length = L := hmlN
    rw [this] at hml
    rw [← hml]
    exact hwfl.2.1

/-- C2: once a lane has received more than `max_length` records, direct reads
of evicted logical indices fail with OutOfRange while each of the newest
`max_length` records is still read back unchanged by its original logical
index; writing itself never reports an error (eviction is not an error). -/
theorem C2_eviction_oldest_unreadable (L : Nat) (hL : 0 < L) (rs : List Record)
    (hlen : L < rs.length) :
    (∀ i, i + L < rs.length →
      ((Lane.fresh L).writeAll rs).read i = .error .OutOfRange) ∧
    (∀ i, rs.length ≤ i + L → i < rs.length →
      ((Lane.fresh L).writeAll rs).read i = .ok (rs.getD i default)) ∧
    (∀ (b : ReplayBuffer) (items : List Record), items.length = b.batch_size →
      (∀ r ∈ items, r.conforms b.data_spec = true) → (b.add_batch items).2 = none) := by
  refine ⟨?_, ?_, ?_⟩
  · intro i hi
    apply lane_fresh_writeAll_read_err
    rw [Nat.min_eq_right (by omega : L ≤ rs.length)]
    omega
  · intro i h2 h1
    apply lane_fresh_writeAll_read_ok L hL rs i h1
    rw [Nat.min_eq_right (by omega : L ≤ rs.length)]
    omega
  · intro b items h1 h2
    rw [add_batch_ok b items h1 h2]

/-- Witness for C2 at a lane of capacity 2 receiving three records: the
first record becomes unreadable, the last two read back, and a conforming
`add_batch` reports no error. -/
theorem C2_eviction_witness :
    ((Lane.fresh 2).writeAll [⟨[1], 0, 1⟩, ⟨[1], 0, 2⟩, ⟨[1], 0, 3⟩]).read 0 =
      .error .OutOfRange ∧
    ((Lane.fresh 2).writeAll [⟨[1], 0, 1⟩, ⟨[1], 0, 2⟩, ⟨[1], 0, 3⟩]).read 1 =
      .ok ⟨[1], 0, 2⟩ ∧
    ((ReplayBuffer.new ⟨[1], 0⟩ 1 2).add_batch [⟨[1], 0, 7⟩]).2 = none := by
  have h := C2_eviction_oldest_unreadable 2 (by decide)
    [⟨[1], 0, 1⟩, ⟨[1], 0, 2⟩, ⟨[1], 0, 3⟩] (by decide)
  refine ⟨h.1 0 (by decide), ?_, ?_⟩
  · have := h.2.1 1 (by decide) (by decide)
    simpa using this
  · exact h.2.2 (ReplayBuffer.new ⟨[1], 0⟩ 1 2) [⟨[1], 0, 7⟩] (by decide) (by decide)

/-- Witness for C1: five valid batches into a two-lane buffer of per-lane
capacity three leave lane 0 with exactly min 5 3 = 3 live records. -/
theorem C1_count_witness :
    ((addBatchSeq (ReplayBuffer.new ⟨[2], 1⟩ 2 3)
      (List.replicate 5 (List.replicate 2 ⟨[2], 1, 7⟩))).laneAt 0).count = 3 := by
  have h := (C1_lane_count_after_writes ⟨[2], 1⟩ 2 3 5
    (List.replicate 5 (List.replicate 2 ⟨[2], 1, 7⟩)) (by decide) (by decide)).1
  have hmem : (addBatchSeq (ReplayBuffer.new ⟨[2], 1⟩ 2 3)
      (List.replicate 5 (List.replicate 2 ⟨[2], 1, 7⟩))).laneAt 0 ∈
      (addBatchSeq (ReplayBuffer.new ⟨[2], 1⟩ 2 3)
      (List.replicate 5 (List.replicate 2 ⟨[2], 1, 7⟩))).lanes := by
    apply getD_mem_of_lt
    decide
  rw [h _ hmem]
  decide

/-- C3: a buffer constructed by `new(data_spec, batch_size, max_length)` has
total capacity `batch_size * max_length` and owns exactly `batch_size` lanes,
and its capacity, data specification and lane structure survive any sequence
of the mutating lifecycle operations (`add_batch`, `clear`; the reads
`get_next`/`as_stream`/`gather_all` return values without touching the
buffer). -/
theorem C3_capacity_spec_fixed (spec : DataSpec) (bs L : Nat) (ops : List BufOp) :
    (ReplayBuffer.new spec bs L).capacity = bs * L ∧
    (ReplayBuffer.new spec bs L).lanes.length = bs ∧
    (applyOps (ReplayBuffer.new spec bs L) ops).capacity = bs * L ∧
    (applyOps (ReplayBuffer.new spec bs L) ops).data_spec = spec ∧
    (applyOps (ReplayBuffer.new spec bs L) ops).max_length = L ∧
    (applyOps (ReplayBuffer.new spec bs L) ops).lanes.length = bs := by
  obtain ⟨h1, h2, h3⟩ := applyOps_fields ops (ReplayBuffer.new spec bs L)
  refine ⟨rfl, by simp [ReplayBuffer.new], ?_, ?_, ?_, ?_⟩
  · unfold ReplayBuffer.capacity
    rw [h2, h3]
    rfl
  · rw [h1]
    rfl
  · rw [h3]
    rfl
  · rw [applyOps_lanes_length ops _ (new_WF spec bs L)]
    simp [ReplayBuffer.new]

/-- C4: `add_batch` fails with BatchSizeMismatch on a wrong-sized batch and
with SpecMismatch when some record disagrees with the data specification; in
both failure cases the returned buffer is exactly the pre-call buffer (all
lane counts and heads unchanged), and on success record i is written to
lane i. -/
theorem C4_add_batch_failures_atomic (b : ReplayBuffer) (items : List Record)
    (hwf : b.WF) :
    (items.length ≠ b.batch_size →
      b.add_batch items = (b, some .BatchSizeMismatch)) ∧
    (items.length = b.batch_size → (∃ r ∈ items, r.conforms b.data_spec = false) →
      b.add_batch items = (b, some .SpecMismatch)) ∧
    ((b.add_batch items).2 ≠ none → (b.add_batch items).1 = b) ∧
    (items.length = b.batch_size → (∀ r ∈ items, r.conforms b.data_spec = true) →
      (b.add_batch items).2 = none ∧
      ∀ i, i < b.lanes.length →
        (b.add_batch items).1.laneAt i = (b.laneAt i).write (items.getD i default)) := by
  refine ⟨?_, ?_, add_batch_fst_of_err b items, ?_⟩
  · intro h
    unfold ReplayBuffer.add_batch
    rw [if_pos h]
  · intro h1 h2
    obtain ⟨r, hr, hrc⟩ := h2
    have hany : items.any (fun r => !(r.conforms b.data_spec)) = true := by
      rw [List.any_eq_true]
      exact ⟨r, hr, by simp [hrc]⟩
    unfold ReplayBuffer.add_batch
    rw [if_neg (by omega), if_pos hany]
  · intro h1 h2
    rw [add_batch_ok b items h1 h2]
    refine ⟨rfl, ?_⟩
    intro i hi
    show (List.zipWith Lane.write b.lanes items).getD i (Lane.fresh b.max_length) =
      (b.laneAt i).write (items.getD i default)
    rw [getD_zipWith_write b.lanes items i (Lane.fresh b.max_length) default hi
      (by rw [h1, ← hwf.1]; exact hi)]
    rfl

/-- Witness for C4 on a one-lane buffer: a two-record batch is rejected with
BatchSizeMismatch, a nonconforming record with SpecMismatch, and a valid
batch succeeds writing record 0 into lane 0. -/
theorem C4_add_batch_witness :
    (ReplayBuffer.new ⟨[1], 0⟩ 1 2).add_batch [⟨[1], 0, 5⟩, ⟨[1], 0, 6⟩] =
      (ReplayBuffer.new ⟨[1], 0⟩ 1 2, some .BatchSizeMismatch) ∧
    (ReplayBuffer.new ⟨[1], 0⟩ 1 2).add_batch [⟨[9], 0, 5⟩] =
      (ReplayBuffer.new ⟨[1], 0⟩ 1 2, some .SpecMismatch) ∧
    ((ReplayBuffer.new ⟨[1], 0⟩ 1 2).add_batch [⟨[1], 0, 5⟩]).1.laneAt 0 =
      ((ReplayBuffer.new ⟨[1], 0⟩ 1 2).laneAt 0).write ⟨[1], 0, 5⟩ := by
  refine ⟨?_, ?_, ?_⟩
  · exact (C4_add_batch_failures_atomic (ReplayBuffer.new ⟨[1], 0⟩ 1 2)
      [⟨[1], 0, 5⟩, ⟨[1], 0, 6⟩] (new_WF _ _ _)).1 (by decide)
  · exact (C4_add_batch_failures_atomic (ReplayBuffer.new ⟨[1], 0⟩ 1 2)
      [⟨[9], 0, 5⟩] (new_WF _ _ _)).2.1 (by decide) ⟨⟨[9], 0, 5⟩, by decide, by decide⟩
  · have := ((C4_add_batch_failures_atomic (ReplayBuffer.new ⟨[1], 0⟩ 1 2)
      [⟨[1], 0, 5⟩] (new_WF _ _ _)).2.2.2 (by decide) (by decide)).2 0 (by decide)
    simpa using this

lemma get_next_eq_sampleReads (b : ReplayBuffer) (rand : Nat → Nat) (k n : Nat)
    (hne : (b.validWindows n).length ≠ 0) :
    b.get_next rand k n = sampleReads
      (fun i =>
        (b.laneAt ((b.validWindows n).getD
          (rand i % (b.validWindows n).length) (0, 0)).1).read_window
          ((b.validWindows n).getD (rand i % (b.validWindows n).length) (0, 0)).2 n)
      (List.range k) := by
  simp only [ReplayBuffer.get_next]
  rw [if_neg hne]

lemma get_next_insufficient_of_no_window (b : ReplayBuffer) (rand : Nat → Nat)
    (k n : Nat) (hz : (b.validWindows n).length = 0) :
    b.get_next rand k n = .error .InsufficientData := by
  simp only [ReplayBuffer.get_next]
  rw [if_pos hz]

lemma get_next_ok_of_windows (b : ReplayBuffer) (rand : Nat → Nat) (k n : Nat)
    (hne : (b.validWindows n).length ≠ 0) :
    ∃ out, b.get_next rand k n = .ok out ∧ out.length = k := by
  rw [get_next_eq_sampleReads b rand k n hne]
  have hall : ∀ i ∈ List.range k, ∃ w,
      (b.laneAt ((b.validWindows n).getD
        (rand i % (b.validWindows n).length) (0, 0)).1).read_window
        ((b.validWindows n).getD (rand i % (b.validWindows n).length) (0, 0)).2 n =
        .ok w := by
    intro i _
    have hlt : rand i % (b.validWindows n).length < (b.validWindows n).length :=
      Nat.mod_lt _ (by omega)
    have hp : (b.validWindows n).getD (rand i % (b.validWindows n).length) (0, 0) ∈
        b.validWindows n := getD_mem_of_lt _ _ _ hlt
    set p := (b.validWindows n).getD (rand i % (b.validWindows n).length) (0, 0) with hpdef
    have hp' : (p.1, p.2) ∈ b.validWindows n := by
      rw [Prod.mk.eta]
      exact hp
    obtain ⟨_, hc1, hc2⟩ := (mem_validWindows b n p.1 p.2).mp hp'
    exact ⟨_, read_window_ok_of_valid (b.laneAt p.1) p.2 n hc1 hc2⟩
  obtain ⟨out, hout, hlen⟩ := sampleReads_ok_of_all _ _ hall
  exact ⟨out, hout, by rw [hlen, List.length_range]⟩

lemma get_next_ok_shape (b : ReplayBuffer) (rand : Nat → Nat) (k n : Nat)
    (out : List (List Record)) (h : b.get_next rand k n = .ok out) :
    out.length = k ∧ ∀ w ∈ out, w.length = n ∧ ∃ li, li < b.lanes.length ∧
      ∃ s, ∀ j, j < n → (b.laneAt li).read (s + j) = .ok (w.getD j default) := by
  by_cases hz : (b.validWindows n).length = 0
  · rw [get_next_insufficient_of_no_window b rand k n hz] at h
    exact absurd h (by simp)
  · rw [get_next_eq_sampleReads b rand k n hz] at h
    obtain ⟨hlen, hmem⟩ := sampleReads_ok_elim _ _ _ h
    refine ⟨by rw [hlen, List.length_range], ?_⟩
    intro w hw
    obtain ⟨i, _, hfi⟩ := hmem w hw
    have hlt : rand i % (b.validWindows n).length < (b.validWindows n).length :=
      Nat.mod_lt _ (by omega)
    have hp : (b.validWindows n).getD (rand i % (b.validWindows n).length) (0, 0) ∈
        b.validWindows n := getD_mem_of_lt _ _ _ hlt
    set p := (b.validWindows n).getD (rand i % (b.validWindows n).length) (0, 0) with hpdef
    have hp' : (p.1, p.2) ∈ b.validWindows n := by
      rw [Prod.mk.eta]
      exact hp
    obtain ⟨hli, _, _⟩ := (mem_validWindows b n p.1 p.2).mp hp'
    obtain ⟨hwlen, hreads⟩ := read_window_ok_elim (b.laneAt p.1) n p.2 w hfi
    exact ⟨hwlen, p.1, hli, p.2, hreads⟩

lemma get_next_error_iff (b : ReplayBuffer) (hwf : b.WF) (rand : Nat → Nat) (k n : Nat) :
    b.get_next rand k n = .error .InsufficientData ↔ ∀ l ∈ b.lanes, l.count < n := by
  have hch : ∀ l ∈ b.lanes, l.count ≤ l.head := fun l hl => (hwf.2 l hl).1.2.2
  by_cases hz : (b.validWindows n).length = 0
  · have hrhs : ∀ l ∈ b.lanes, l.count < n := by
      intro l hl
      by_contra hcnt
      push_neg at hcnt
      exact (validWindows_ne_nil_iff b n hch).mpr ⟨l, hl, hcnt⟩
        (List.length_eq_zero.mp hz)
    exact ⟨fun _ => hrhs, fun _ => get_next_insufficient_of_no_window b rand k n hz⟩
  · constructor
    · intro h
      obtain ⟨out, hout, _⟩ := get_next_ok_of_windows b rand k n hz
      rw [h] at hout
      exact absurd hout (by simp)
    · intro hall
      obtain ⟨l, hl, hcnt⟩ := (validWindows_ne_nil_iff b n hch).mp
        (fun hnil => hz (by rw [hnil]; rfl))
      have := hall l hl
      omega

/-- C5: `get_next` fails with InsufficientData exactly when no lane yet holds
at least `num_steps` records; a successful call returns `sample_batch_size`
windows of `num_steps` records each, and with `num_steps = 1` exactly
`sample_batch_size` single records, each read back from a currently-live
logical index of some lane. -/
theorem C5_get_next_insufficient_and_shape (b : ReplayBuffer) (hwf : b.WF)
    (rand : Nat → Nat) (k n : Nat) :
    (b.get_next rand k n = .error .InsufficientData ↔ ∀ l ∈ b.lanes, l.count < n) ∧
    (∀ out, b.get_next rand k n = .ok out →
      out.length = k ∧ ∀ w ∈ out, w.length = n) ∧
    (∀ out, b.get_next rand k 1 = .ok out →
      out.length = k ∧ ∀ w ∈ out, ∃ r, w = [r] ∧
        ∃ li, li < b.lanes.length ∧ ∃ i, (b.laneAt li).read i = .ok r) := by
  refine ⟨get_next_error_iff b hwf rand k n, ?_, ?_⟩
  · intro out hout
    obtain ⟨hlen, hall⟩ := get_next_ok_shape b rand k n out hout
    exact ⟨hlen, fun w hw => (hall w hw).1⟩
  · intro out hout
    obtain ⟨hlen, hall⟩ := get_next_ok_shape b rand k 1 out hout
    refine ⟨hlen, ?_⟩
    intro w hw
    obtain ⟨hwlen, li, hli, s, hreads⟩ := hall w hw
    cases w with
    | nil => simp at hwlen
    | cons a t =>
      have ht : t = [] := by
        simp only [List.length_cons] at hwlen
        exact List.length_eq_zero.mp (by omega)
      subst ht
      refine ⟨a, rfl, li, hli, s, ?_⟩
      have := hreads 0 (by omega)
      simpa using this

/-- Witness for C5: a freshly constructed (empty) one-lane buffer rejects a
sample request with InsufficientData. -/
theorem C5_get_next_witness :
    (ReplayBuffer.new ⟨[1], 0⟩ 1 2).get_next (fun _ => 0) 3 1 =
      .error .InsufficientData :=
  (C5_get_next_insufficient_and_shape (ReplayBuffer.new ⟨[1], 0⟩ 1 2)
    (new_WF ⟨[1], 0⟩ 1 2) (fun _ => 0) 3 1).1.mpr (by decide)

lemma list_eq_map_range (ws : List Record) (n : Nat) (f : Nat → Record)
    (hlen : ws.length = n) (h : ∀ j, j < n → ws.getD j default = f j) :
    ws = (List.range n).map f := by
  apply List.ext_getElem
  · simp [hlen]
  · intro i h1 h2
    have hi : i < n := by omega
    rw [List.getElem_map, List.getElem_range]
    rw [← h i hi]
    rw [List.getD_eq_getElem _ _ h1]

/-- C6: a window successfully read from a lane always consists of contiguous
records of the original write sequence in insertion order, lies entirely
within the written range and never reaches past the eviction boundary; in the
concrete scenario (one lane, capacity 3, writes R1..R4) the lane holds
[R2,R3,R4] and `get_next` with two steps can only return [R2,R3] or
[R3,R4]. -/
theorem C6_windows_contiguous_in_order (L : Nat) (hL : 0 < L) (rs : List Record) :
    (∀ s n ws, ((Lane.fresh L).writeAll rs).read_window s n = .ok ws →
      ws = (List.range n).map (fun j => rs.getD (s + j) default) ∧
      (0 < n → s + n ≤ rs.length ∧ rs.length ≤ s + min rs.length L)) ∧
    ((Lane.fresh 3).writeAll
      [⟨[1], 0, 1⟩, ⟨[1], 0, 2⟩, ⟨[1], 0, 3⟩, ⟨[1], 0, 4⟩]).liveList =
      [⟨[1], 0, 2⟩, ⟨[1], 0, 3⟩, ⟨[1], 0, 4⟩] ∧
    (∀ (rand : Nat → Nat) (out : List (List Record)),
      (ReplayBuffer.mk ⟨[1], 0⟩ 1 3 [(Lane.fresh 3).writeAll
        [⟨[1], 0, 1⟩, ⟨[1], 0, 2⟩, ⟨[1], 0, 3⟩, ⟨[1], 0, 4⟩]]).get_next rand 1 2 =
        .ok out →
      out = [[⟨[1], 0, 2⟩, ⟨[1], 0, 3⟩]] ∨ out = [[⟨[1], 0, 3⟩, ⟨[1], 0, 4⟩]]) := by
  refine ⟨?_, by decide, ?_⟩
  · intro s n ws h
    obtain ⟨hwlen, hreads⟩ := read_window_ok_elim _ n s ws h
    have hhd := lane_fresh_writeAll_head L rs
    have hct := lane_fresh_writeAll_count L rs
    have hbounds : ∀ j, j < n →
        s + j < rs.length ∧ rs.length ≤ s + j + min rs.length L := by
      intro j hj
      obtain ⟨hb1, hb2, _⟩ := lane_read_ok_inv _ _ _ (hreads j hj)
      rw [hhd] at hb1
      rw [hhd, hct] at hb2
      exact ⟨hb1, hb2⟩
    have hvals : ∀ j, j < n → ws.getD j default = rs.getD (s + j) default := by
      intro j hj
      obtain ⟨hb1, hb2⟩ := hbounds j hj
      have hro := lane_fresh_writeAll_read_ok L hL rs (s + j) hb1 hb2
      have hrd := hreads j hj
      rw [hro] at hrd
      exact (Except.ok.inj hrd).symm
    refine ⟨list_eq_map_range ws n _ hwlen hvals, ?_⟩
    intro hn
    constructor
    · have := (hbounds (n - 1) (by omega)).1
      omega
    · have := (hbounds 0 (by omega)).2
      omega
  · intro rand out h
    have hlen2 : ((ReplayBuffer.mk ⟨[1], 0⟩ 1 3 [(Lane.fresh 3).writeAll
        [⟨[1], 0, 1⟩, ⟨[1], 0, 2⟩, ⟨[1], 0, 3⟩, ⟨[1], 0, 4⟩]]).validWindows 2).length = 2 :=
      by decide
    rw [get_next_eq_sampleReads _ rand 1 2 (by rw [hlen2]; omega)] at h
    obtain ⟨holen, hmem⟩ := sampleReads_ok_elim _ _ _ h
    rw [List.length_range] at holen
    cases out with
    | nil => simp at holen
    | cons a t =>
      have ht : t = [] := by
        simp only [List.length_cons] at holen
        exact List.length_eq_zero.mp (by omega)
      subst ht
      obtain ⟨i, hi, hfi⟩ := hmem a (List.mem_cons_self a [])
      have hi0 : i = 0 := by simpa using hi
      subst hi0
      rw [hlen2] at hfi
      rcases Nat.mod_two_eq_zero_or_one (rand 0) with hm | hm <;> rw [hm] at hfi
      · left
        have heval : (((ReplayBuffer.mk ⟨[1], 0⟩ 1 3 [(Lane.fresh 3).writeAll
            [⟨[1], 0, 1⟩, ⟨[1], 0, 2⟩, ⟨[1], 0, 3⟩, ⟨[1], 0, 4⟩]]).laneAt
            (((ReplayBuffer.mk ⟨[1], 0⟩ 1 3 [(Lane.fresh 3).writeAll
            [⟨[1], 0, 1⟩, ⟨[1], 0, 2⟩, ⟨[1], 0, 3⟩, ⟨[1], 0, 4⟩]]).validWindows 2).getD
            0 (0, 0)).1).read_window
            (((ReplayBuffer.mk ⟨[1], 0⟩ 1 3 [(Lane.fresh 3).writeAll
            [⟨[1], 0, 1⟩, ⟨[1], 0, 2⟩, ⟨[1], 0, 3⟩, ⟨[1], 0, 4⟩]]).validWindows 2).getD
            0 (0, 0)).2 2) = .ok [⟨[1], 0, 2⟩, ⟨[1], 0, 3⟩] := rfl
        rw [heval] at hfi
        rw [← Except.ok.inj hfi]
      · right
        have heval : (((ReplayBuffer.mk ⟨[1], 0⟩ 1 3 [(Lane.fresh 3).writeAll
            [⟨[1], 0, 1⟩, ⟨[1], 0, 2⟩, ⟨[1], 0, 3⟩, ⟨[1], 0, 4⟩]]).laneAt
            (((ReplayBuffer.mk ⟨[1], 0⟩ 1 3 [(Lane.fresh 3).writeAll
            [⟨[1], 0, 1⟩, ⟨[1], 0, 2⟩, ⟨[1], 0, 3⟩, ⟨[1], 0, 4⟩]]).validWindows 2).getD
            1 (0, 0)).1).read_window
            (((ReplayBuffer.mk ⟨[1], 0⟩ 1 3 [(Lane.fresh 3).writeAll
            [⟨[1], 0, 1⟩, ⟨[1], 0, 2⟩, ⟨[1], 0, 3⟩, ⟨[1], 0, 4⟩]]).validWindows 2).getD
            1 (0, 0)).2 2) = .ok [⟨[1], 0, 3⟩, ⟨[1], 0, 4⟩] := rfl
        rw [heval] at hfi
        rw [← Except.ok.inj hfi]

/-- Witness for C6: the window read at start 1 of length 2 from the
R1..R4 lane is exactly [R2,R3], i.e. contiguous records in insertion order
inside the live range. -/
theorem C6_windows_witness :
    [(⟨[1], 0, 2⟩ : Record), ⟨[1], 0, 3⟩] = (List.range 2).map
      (fun j => [(⟨[1], 0, 1⟩ : Record), ⟨[1], 0, 2⟩, ⟨[1], 0, 3⟩,
        ⟨[1], 0, 4⟩].getD (1 + j) default) ∧
    (0 < 2 → 1 + 2 ≤ 4 ∧ 4 ≤ 1 + min 4 3) := by
  have h := (C6_windows_contiguous_in_order 3 (by decide)
    [⟨[1], 0, 1⟩, ⟨[1], 0, 2⟩, ⟨[1], 0, 3⟩, ⟨[1], 0, 4⟩]).1
    1 2 [⟨[1], 0, 2⟩, ⟨[1], 0, 3⟩] rfl
  refine ⟨h.1, ?_⟩
  intro hn
  have := h.2 hn
  simpa using this

lemma map_eq_replicate_nil (ls : List Lane) (h : ∀ l ∈ ls, l.liveList = ([] : List Record)) :
    ls.map Lane.liveList = List.replicate ls.length [] := by
  induction ls with
  | nil => rfl
  | cons a t ih =>
    rw [List.map_cons, h a (List.mem_cons_self a t), List.length_cons,
      List.replicate_succ, ih (fun l hl => h l (List.mem_cons_of_mem a hl))]

/-- C7: `clear` zeroes every lane's count and head while leaving capacity and
data specification untouched, so `gather_all` after `clear` yields an empty
snapshot for every lane; `gather_all` on a never-written buffer is likewise
empty for every lane. -/
theorem C7_clear_resets_gather_all_empty (b : ReplayBuffer) (spec : DataSpec)
    (bs L : Nat) :
    (∀ l ∈ b.clear.lanes, l.count = 0 ∧ l.head = 0) ∧
    b.clear.capacity = b.capacity ∧
    b.clear.data_spec = b.data_spec ∧
    b.clear.gather_all = .ok (List.replicate b.lanes.length []) ∧
    (ReplayBuffer.new spec bs L).gather_all = .ok (List.replicate bs []) := by
  refine ⟨?_, rfl, rfl, ?_, ?_⟩
  · intro l hl
    obtain ⟨l', _, rfl⟩ := List.mem_map.mp hl
    exact ⟨rfl, rfl⟩
  · have hcnt : ∀ l ∈ b.clear.lanes, l.count = 0 := by
      intro l hl
      obtain ⟨l', _, rfl⟩ := List.mem_map.mp hl
      rfl
    have hall : b.clear.lanes.all
        (fun l => l.count == (b.clear.lanes.headD
          (Lane.fresh b.clear.max_length)).count) = true := by
      rw [List.all_eq_true]
      intro l hl
      cases hcase : b.clear.lanes with
      | nil => rw [hcase] at hl; simp at hl
      | cons a t =>
        have ha : a.count = 0 := hcnt a (by rw [hcase]; exact List.mem_cons_self a t)
        simp only [List.headD_cons, ha, hcnt l hl]
        rfl
    unfold ReplayBuffer.gather_all
    rw [if_pos hall]
    congr 1
    have hnil : ∀ l ∈ b.clear.lanes, l.liveList = ([] : List Record) := by
      intro l hl
      obtain ⟨l', _, rfl⟩ := List.mem_map.mp hl
      rfl
    rw [map_eq_replicate_nil b.clear.lanes hnil]
    show List.replicate (b.lanes.map Lane.clear).length ([] : List Record) = _
    rw [List.length_map]
  · have hall : (ReplayBuffer.new spec bs L).lanes.all
        (fun l => l.count == ((ReplayBuffer.new spec bs L).lanes.headD
          (Lane.fresh (ReplayBuffer.new spec bs L).max_length)).count) = true := by
      rw [List.all_eq_true]
      intro l hl
      have hfresh : l = Lane.fresh L := new_lanes_mem spec bs L l hl
      cases bs with
      | zero => exact absurd hl (by simp [ReplayBuffer.new])
      | succ m =>
        show (l.count == ((ReplayBuffer.new spec (m + 1) L).lanes.headD
          (Lane.fresh (ReplayBuffer.new spec (m + 1) L).max_length)).count) = true
        rw [hfresh]
        rfl
    unfold ReplayBuffer.gather_all
    rw [if_pos hall]
    congr 1
    show (List.replicate bs (Lane.fresh L)).map Lane.liveList = _
    rw [List.map_replicate]
    rfl

/-- Witness for C7: clearing a one-lane buffer holding one record makes
`gather_all` return a single empty lane snapshot. -/
theorem C7_clear_witness :
    (ReplayBuffer.mk ⟨[1], 0⟩ 1 2
      [(Lane.fresh 2).write ⟨[1], 0, 5⟩]).clear.gather_all =
      .ok (List.replicate 1 []) := by
  have := (C7_clear_resets_gather_all_empty
    (ReplayBuffer.mk ⟨[1], 0⟩ 1 2 [(Lane.fresh 2).write ⟨[1], 0, 5⟩])
    ⟨[1], 0⟩ 1 2).2.2.2.1
  simpa using this

lemma validStarts_nodup (lane : Lane) (n : Nat) : (lane.validStarts n).Nodup :=
  (List.nodup_range _).filter _

lemma validWindows_nodup (b : ReplayBuffer) (n : Nat) : (b.validWindows n).Nodup := by
  rw [ReplayBuffer.validWindows, List.nodup_flatMap]
  constructor
  · intro li _
    exact (validStarts_nodup _ n).map (fun x y h => by simpa using h)
  · have hnd : (List.range b.lanes.length).Pairwise (· ≠ ·) := List.nodup_range _
    refine hnd.imp ?_
    intro a c hne x hxa hxc
    obtain ⟨s, _, hxe⟩ := List.mem_map.mp hxa
    obtain ⟨t, _, hxe2⟩ := List.mem_map.mp hxc
    exact hne (Prod.mk.inj (hxe.trans hxe2.symm)).1

lemma nodup_getD_existsUnique (l : List (Nat × Nat)) (hnd : l.Nodup) (w : Nat × Nat)
    (hw : w ∈ l) : ∃! u, u < l.length ∧ l.getD u (0, 0) = w := by
  obtain ⟨i, hi⟩ := List.mem_iff_get.mp hw
  refine ⟨(i : Nat), ⟨i.isLt, ?_⟩, ?_⟩
  · rw [List.getD_eq_getElem _ _ i.isLt, ← hi]
    simp [List.get_eq_getElem]
  · rintro u ⟨hu, hgu⟩
    have hgu' : l.get ⟨u, hu⟩ = w := by
      rw [List.getD_eq_getElem _ _ hu] at hgu
      simpa [List.get_eq_getElem] using hgu
    exact congrArg Fin.val (hnd.get_inj_iff.mp (hgu'.trans hi.symm))

/-- C8: a single pick of the sampler corresponds to exactly one pick value
per valid `(lane, start)` window (so a uniformly random pick value induces the
uniform distribution over all valid windows); on a buffer with unequal lane
counts this differs from first choosing a lane uniformly and then a start
uniformly within it — on `sampleBufferEx` the window probabilities are
1/3 versus 1/4. -/
theorem C8_sampler_uniform_over_valid_windows :
    (∀ (b : ReplayBuffer) (n : Nat) (w : Nat × Nat), w ∈ b.validWindows n →
      ∃! u, u < (b.validWindows n).length ∧ (b.validWindows n).getD u (0, 0) = w) ∧
    (sampleBufferEx.laneAt 0).count ≠ (sampleBufferEx.laneAt 1).count ∧
    uniformWindowProb sampleBufferEx 1 (1, 0) = 1 / 3 ∧
    laneThenStartProb sampleBufferEx 1 (1, 0) = 1 / 4 ∧
    uniformWindowProb sampleBufferEx 1 (1, 0) ≠
      laneThenStartProb sampleBufferEx 1 (1, 0) := by
  have hu : uniformWindowProb sampleBufferEx 1 (1, 0) = 1 / 3 := by
    unfold uniformWindowProb
    rw [if_pos (by decide : ((1 : Nat), (0 : Nat)) ∈ sampleBufferEx.validWindows 1),
      show (sampleBufferEx.validWindows 1).length = 3 from by decide]
    norm_num
  have hl : laneThenStartProb sampleBufferEx 1 (1, 0) = 1 / 4 := by
    unfold laneThenStartProb
    rw [if_pos (by decide : ((1 : Nat), (0 : Nat)) ∈ sampleBufferEx.validWindows 1),
      show sampleBufferEx.lanes.length = 2 from by decide,
      show ((sampleBufferEx.laneAt ((1 : Nat), (0 : Nat)).1).validStarts 1).length = 2
        from by decide]
    norm_num
  refine ⟨?_, by decide, hu, hl, ?_⟩
  · intro b n w hw
    exact nodup_getD_existsUnique _ (validWindows_nodup b n) w hw
  · rw [hu, hl]
    norm_num

/-- Witness for C8: the two distributions disagree on the concrete window
(1, 0) of the unequal-count example buffer. -/
theorem C8_sampler_witness :
    uniformWindowProb sampleBufferEx 1 (1, 0) ≠
      laneThenStartProb sampleBufferEx 1 (1, 0) :=
  C8_sampler_uniform_over_valid_windows.2.2.2.2

lemma cardGameEmit_fst (s : CardGameState) : (cardGameEmit s).1 = s := by
  unfold cardGameEmit
  split_ifs <;> rfl

/-- C9: with the episode not already over, `_step` raises ValueError on any
action other than 0 or 1 leaving the state untouched, action 0 adds the drawn
card (a value between 1 and 10) to the running sum, and action 1 sets the
episode-ended flag. -/
theorem C9_step_invalid_action_value_error (s : CardGameState) (a c : Int)
    (hne : s.episode_ended = false) :
    (a ≠ 0 → a ≠ 1 → cardGameStep s a c = (s, .error .valueError)) ∧
    (a = 0 → 1 ≤ c → c ≤ 10 →
      (cardGameStep s a c).1.state = s.state + c ∧
      s.state + 1 ≤ (cardGameStep s a c).1.state ∧
      (cardGameStep s a c).1.state ≤ s.state + 10 ∧
      (cardGameStep s a c).1.episode_ended = s.episode_ended) ∧
    (a = 1 → (cardGameStep s a c).1.episode_ended = true ∧
      (cardGameStep s a c).1.state = s.state) := by
  refine ⟨?_, ?_, ?_⟩
  · intro h0 h1
    simp [cardGameStep, hne, h0, h1]
  · intro h0 hc1 hc10
    subst h0
    have hfst : (cardGameStep s 0 c).1 = { s with state := s.state + c } := by
      simp [cardGameStep, hne, cardGameEmit_fst]
    rw [hfst]
    refine ⟨rfl, by simp; omega, by simp; omega, rfl⟩
  · intro h1
    subst h1
    have hfst : (cardGameStep s 1 c).1 = { s with episode_ended := true } := by
      simp [cardGameStep, hne, cardGameEmit_fst]
    rw [hfst]
    exact ⟨rfl, rfl⟩

/-- Witness for C9: from sum 5 with the episode live, action 2 raises
ValueError leaving the state at 5, action 0 with card 3 moves the sum to 8,
and action 1 ends the episode. -/
theorem C9_step_witness :
    cardGameStep ⟨5, false⟩ 2 3 = (⟨5, false⟩, .error .valueError) ∧
    (cardGameStep ⟨5, false⟩ 0 3).1.state = 8 ∧
    (cardGameStep ⟨5, false⟩ 1 3).1.episode_ended = true := by
  refine ⟨?_, ?_, ?_⟩
  · exact (C9_step_invalid_action_value_error ⟨5, false⟩ 2 3 rfl).1
      (by decide) (by decide)
  · have := ((C9_step_invalid_action_value_error ⟨5, false⟩ 0 3 rfl).2.1
      rfl (by decide) (by decide)).1
    rw [this]
    decide
  · exact ((C9_step_invalid_action_value_error ⟨5, false⟩ 1 3 rfl).2.2 rfl).1

/-- C10: with the episode live and a legal action, `_step` returns a
termination time step exactly when the action is 1 or the resulting sum
reaches 21; the terminal reward is `state - 21` when the sum is at most 21
and `-21` otherwise (hence never positive), and every non-terminal step is a
transition with reward 0 and discount 1. -/
theorem C10_step_termination_reward (s : CardGameState) (a c : Int)
    (hne : s.episode_ended = false) (ha : a = 0 ∨ a = 1) :
    ∃ t, (cardGameStep s a c).2 = .ok t ∧
      (t.kind = .last ↔ (a = 1 ∨ 21 ≤ (cardGameStep s a c).1.state)) ∧
      (t.kind = .last →
        t.reward = (if (cardGameStep s a c).1.state ≤ 21
          then (cardGameStep s a c).1.state - 21 else -21) ∧ t.reward ≤ 0) ∧
      (t.kind ≠ .last → t.kind = .mid ∧ t.reward = 0 ∧ t.discount = 1) := by
  rcases ha with rfl | rfl
  · have hfst : (cardGameStep s 0 c).1 = { s with state := s.state + c } := by
      simp [cardGameStep, hne, cardGameEmit_fst]
    by_cases h21 : 21 ≤ s.state + c
    · refine ⟨ts_termination (s.state + c)
        (if s.state + c ≤ 21 then s.state + c - 21 else -21), ?_, ?_, ?_, ?_⟩
      · simp [cardGameStep, hne, cardGameEmit, h21, ts_termination]
      · rw [hfst]
        constructor
        · intro _
          right
          exact h21
        · intro _
          rfl
      · intro _
        rw [hfst]
        constructor
        · rfl
        · show (if s.state + c ≤ 21 then s.state + c - 21 else -21) ≤ 0
          split_ifs <;> omega
      · intro hk
        exact absurd rfl hk
    · refine ⟨ts_transition (s.state + c) 0 1, ?_, ?_, ?_, ?_⟩
      · simp [cardGameStep, hne, cardGameEmit, h21, ts_transition]
      · rw [hfst]
        constructor
        · intro hk
          exact absurd hk (by simp [ts_transition])
        · intro hor
          rcases hor with h | h
          · exact absurd h (by omega)
          · simp only [] at h
            omega
      · intro hk
        exact absurd hk (by simp [ts_transition])
      · intro _
        exact ⟨rfl, rfl, rfl⟩
  · have hfst : (cardGameStep s 1 c).1 = { s with episode_ended := true } := by
      simp [cardGameStep, hne, cardGameEmit_fst]
    refine ⟨ts_termination s.state
      (if s.state ≤ 21 then s.state - 21 else -21), ?_, ?_, ?_, ?_⟩
    · simp [cardGameStep, hne, cardGameEmit, ts_termination]
    · constructor
      · intro _
        left
        rfl
      · intro _
        rfl
    · intro _
      constructor
      · rw [hfst]
        rfl
      · show (if s.state ≤ 21 then s.state - 21 else -21) ≤ 0
        split_ifs <;> omega
    · intro hk
      exact absurd rfl hk

/-- Witness for C10: from sum 18 with the episode live, drawing a 5 (action
0) terminates the round with reward -21 + 23 capped rule: the sum 23 exceeds
21, so the reward is -21; stopping (action 1) at sum 18 terminates with
reward -3. -/
theorem C10_step_witness :
    (cardGameStep ⟨18, false⟩ 0 5).2 = .ok (ts_termination 23 (-21)) ∧
    (ts_termination 23 (-21)).reward ≤ 0 ∧
    (cardGameStep ⟨18, false⟩ 1 5).2 = .ok (ts_termination 18 (-3)) := by
  obtain ⟨t, hok, _, hterm, _⟩ :=
    C10_step_termination_reward ⟨18, false⟩ 0 5 rfl (Or.inl rfl)
  have hcomp : (cardGameStep ⟨18, false⟩ 0 5).2 = .ok (ts_termination 23 (-21)) := rfl
  rw [hcomp] at hok
  have ht := Except.ok.inj hok
  refine ⟨hcomp, ?_, rfl⟩
  have hr := (hterm (by rw [← ht]; rfl)).2
  rw [← ht] at hr
  exact hr
